import Mathlib

/-!
Shallow embedding of the librecuda command-queue core (`cmdqueue.h` plus the
behaviour specified for its member functions).  Machine integers are modelled
as `Nat` with explicit reduction modulo `2 ^ 32` (NvU32) or `2 ^ 64` (NvU64)
where the width matters.  The repository ships only the class declaration; each
operation whose body is absent is modelled from the specification and carries a
doc comment saying so.
-/

namespace LibreCuda

/-- Closed set of status codes returned by every public queue operation. -/
inductive libreCudaStatus_t where
  | LIBRECUDA_SUCCESS
  | LIBRECUDA_ERROR_NOT_INITIALIZED
  | LIBRECUDA_ERROR_OUT_OF_MEMORY
  | LIBRECUDA_ERROR_POOL_EXHAUSTED
  | LIBRECUDA_ERROR_SUBMISSION_FAILED
  | LIBRECUDA_ERROR_TIMEOUT
  | LIBRECUDA_ERROR_INVALID_ARGUMENT
deriving DecidableEq, Repr

export libreCudaStatus_t (LIBRECUDA_SUCCESS LIBRECUDA_ERROR_NOT_INITIALIZED
  LIBRECUDA_ERROR_OUT_OF_MEMORY LIBRECUDA_ERROR_POOL_EXHAUSTED
  LIBRECUDA_ERROR_SUBMISSION_FAILED LIBRECUDA_ERROR_TIMEOUT
  LIBRECUDA_ERROR_INVALID_ARGUMENT)

/-- The two independent queue classes (`enum QueueType`). -/
inductive QueueType where
  | COMPUTE
  | DMA
deriving DecidableEq, Repr

/-- Device-visible signal record: `NvU64 value; NvU64 time_stamp;`.
Both fields are 64-bit counters, modelled as `Nat` kept below `2 ^ 64`. -/
structure NvSignal where
  value : Nat
  time_stamp : Nat
deriving DecidableEq, Repr

/-- A queue page: CPU-mapped GPU memory (`NvU32 *commandQueueSpace`) that the
command buffer is copied into, plus the append cursor `commandWritePtr`
(an offset in 32-bit words from the base pointer).  The written region is
modelled as the list of words copied so far; `commandWritePtr` equals its
length in every state this development constructs.  The `capacity` field is
modelled from the spec: the header stores only a raw pointer, while the spec
describes a region of fixed capacity per queue class. -/
structure CommandQueuePage where
  commandQueueSpace : List Nat
  commandWritePtr : Nat
  capacity : Nat
deriving DecidableEq, Repr

/-- The command queue state from `class NvCommandQueue` (the `ctx` binding and
the raw signal-pool pointer are opaque collaborators and are not part of the
state the claims speak about; the pool is represented by its size, the
free-slot deque and the primary signal record). -/
structure NvCommandQueue where
  initialized : Bool
  commandBuffer : List Nat
  computeQueuePage : CommandQueuePage
  dmaQueuePage : CommandQueuePage
  signalPoolSize : Nat
  freeSignals : List Nat
  timelineSignal : NvSignal
  timelineCtr : Nat
deriving DecidableEq, Repr

/-- A queue as constructed (bound to a context, not yet usable): nothing is
mapped, `initialized` is false, `timelineCtr` is zero. -/
def freshQueue : NvCommandQueue :=
  { initialized := false
    commandBuffer := []
    computeQueuePage := { commandQueueSpace := [], commandWritePtr := 0, capacity := 0 }
    dmaQueuePage := { commandQueueSpace := [], commandWritePtr := 0, capacity := 0 }
    signalPoolSize := 0
    freeSignals := []
    timelineSignal := { value := 0, time_stamp := 0 }
    timelineCtr := 0 }

/-- Modelled from the spec: the body of `makeNvMethod` is declared `static
inline` in the header but its definition is not under `src`.  §4.1 specifies a
pure bit-packing of (subcommand, method, argument-count, format-type) into
disjoint fields of a 64-bit method word, with no side effects and no failure
path.  The fields are packed at disjoint bit offsets: method in bits 0-12,
subcommand in bits 13-15, size in bits 16-27, typ from bit 28. -/
def makeNvMethod (subcommand method size typ : Nat) : Nat :=
  (typ * 2 ^ 28 + size * 2 ^ 16 + subcommand * 2 ^ 13 + method) % 2 ^ 64

/-- The single encoded unit one `enqueue` call appends: the method word (stored
as one NvU32 per the header's format comment) followed by the argument words
(each an NvU32). -/
def encodeCall (c : Nat × List Nat) : List Nat :=
  c.1 % 2 ^ 32 :: c.2.map (fun a => a % 2 ^ 32)

/-- Modelled from the spec: the body of `NvCommandQueue::enqueue` is not under
`src`.  §4.2: appends the method word followed by each argument word, in
order, to the end of the command buffer; never blocks; fails only before
initialization (allocation failure is outside the model). -/
def enqueue (q : NvCommandQueue) (method : Nat) (arguments : List Nat) :
    libreCudaStatus_t × NvCommandQueue :=
  if q.initialized then
    (LIBRECUDA_SUCCESS,
      { q with commandBuffer := q.commandBuffer ++ encodeCall (method, arguments) })
  else
    (LIBRECUDA_ERROR_NOT_INITIALIZED, q)

/-- Pool slot designated as the primary/timeline signal at initialization. -/
def timelineSlot : Nat := 0

/-- Modelled from the spec: the body of `NvCommandQueue::initializeQueue` is
not under `src`.  §4.3: maps the compute and DMA queue pages (capacity fixed
per class), allocates the signal pool of the capacity fixed at construction,
designates one pool signal (slot 0) as the primary/timeline signal with
initial value 0, and marks the queue usable; repeated calls are rejected
defensively.  Mapping failures are ioctl-level collaborators outside the
model, so the success path is total here. -/
def initializeQueue (q : NvCommandQueue) (pageCapacity poolSize : Nat) :
    libreCudaStatus_t × NvCommandQueue :=
  if q.initialized then
    (LIBRECUDA_ERROR_INVALID_ARGUMENT, q)
  else
    (LIBRECUDA_SUCCESS,
      { initialized := true
        commandBuffer := []
        computeQueuePage :=
          { commandQueueSpace := [], commandWritePtr := 0, capacity := pageCapacity }
        dmaQueuePage :=
          { commandQueueSpace := [], commandWritePtr := 0, capacity := pageCapacity }
        signalPoolSize := poolSize
        freeSignals := List.range' 1 (poolSize - 1)
        timelineSignal := { value := 0, time_stamp := 0 }
        timelineCtr := 0 })

/-- Modelled from the spec: the body of `NvCommandQueue::obtainSignal` is not
under `src`.  §4.4: pops a free slot index from the free-list deque and hands
out that slot; fails with a pool-exhausted error, without blocking and without
touching the free list, when no slot is free. -/
def obtainSignal (q : NvCommandQueue) :
    libreCudaStatus_t × Option Nat × NvCommandQueue :=
  if q.initialized then
    match q.freeSignals with
    | [] => (LIBRECUDA_ERROR_POOL_EXHAUSTED, none, q)
    | i :: rest => (LIBRECUDA_SUCCESS, some i, { q with freeSignals := rest })
  else
    (LIBRECUDA_ERROR_NOT_INITIALIZED, none, q)

/-- Modelled from the spec: the body of `NvCommandQueue::releaseSignal` is not
under `src`.  §4.4: pushes the slot back onto the free-list deque; the caller
guarantees the device no longer references the slot. -/
def releaseSignal (q : NvCommandQueue) (slot : Nat) :
    libreCudaStatus_t × NvCommandQueue :=
  if q.initialized then
    (LIBRECUDA_SUCCESS, { q with freeSignals := q.freeSignals ++ [slot] })
  else
    (LIBRECUDA_ERROR_NOT_INITIALIZED, q)

/-- Modelled from the spec: the concrete opcode numbers of the notify command
are not under `src`; only its shape is specified (§4.5): a method word produced
by the encoder followed by its argument words carrying the signal slot and the
32-bit target.  The exact constants are irrelevant to every claim; the argument
count embedded in the word equals the number of appended arguments. -/
def notifyWords (slot target : Nat) (t : QueueType) : List Nat :=
  encodeCall (makeNvMethod (match t with | QueueType.COMPUTE => 1 | QueueType.DMA => 4)
    16 2 2, [slot, target % 2 ^ 32])

/-- Modelled from the spec: the body of `NvCommandQueue::signalNotify` is not
under `src`.  §4.5: enqueues (via encoder/builder) a command instructing the
device to set the signal's value to the 32-bit target once prior commands of
that queue class complete; it does not itself wait. -/
def signalNotify (q : NvCommandQueue) (slot : Nat) (signalTarget : Nat)
    (t : QueueType) : libreCudaStatus_t × NvCommandQueue :=
  if q.initialized then
    (LIBRECUDA_SUCCESS,
      { q with commandBuffer := q.commandBuffer ++ notifyWords slot signalTarget t })
  else
    (LIBRECUDA_ERROR_NOT_INITIALIZED, q)

/-- Modelled from the spec: shape of the wait command (§4.5), analogous to
`notifyWords`: stall the stream until the signal's value reaches the 32-bit
target. -/
def waitWords (slot target : Nat) : List Nat :=
  encodeCall (makeNvMethod 0 4 2 2, [slot, target % 2 ^ 32])

/-- Modelled from the spec: the body of `NvCommandQueue::signalWait` is not
under `src`.  §4.5: enqueues a command stalling subsequent commands in the
stream until the signal's value reaches the 32-bit target. -/
def signalWait (q : NvCommandQueue) (slot : Nat) (signalTarget : Nat) :
    libreCudaStatus_t × NvCommandQueue :=
  if q.initialized then
    (LIBRECUDA_SUCCESS,
      { q with commandBuffer := q.commandBuffer ++ waitWords slot signalTarget })
  else
    (LIBRECUDA_ERROR_NOT_INITIALIZED, q)

/-- The page owned by the queue for a given class. -/
def pageFor (q : NvCommandQueue) : QueueType → CommandQueuePage
  | QueueType.COMPUTE => q.computeQueuePage
  | QueueType.DMA => q.dmaQueuePage

/-- Replace the page owned by the queue for a given class. -/
def setPage (q : NvCommandQueue) (t : QueueType) (p : CommandQueuePage) :
    NvCommandQueue :=
  match t with
  | QueueType.COMPUTE => { q with computeQueuePage := p }
  | QueueType.DMA => { q with dmaQueuePage := p }

/-- Modelled from the spec: the body of `NvCommandQueue::submitToFifo` is not
under `src`.  §4.6: copies the built buffer into the page at its current write
offset and advances the offset (the GPFifo doorbell update is an opaque
collaborator); §3/§7/§8: a submission whose encoded size exceeds the remaining
page capacity fails deterministically without writing past the page bounds
(the spec flags the concrete overflow policy as an open question; the
deterministic-error policy is the one its error taxonomy and testable
properties require). -/
def submitToFifo (page : CommandQueuePage) (buf : List Nat) :
    libreCudaStatus_t × CommandQueuePage :=
  if page.commandWritePtr + buf.length ≤ page.capacity then
    (LIBRECUDA_SUCCESS,
      { page with commandQueueSpace := page.commandQueueSpace ++ buf
                  commandWritePtr := page.commandWritePtr + buf.length })
  else
    (LIBRECUDA_ERROR_SUBMISSION_FAILED, page)

/-- Modelled from the spec: the body of `NvCommandQueue::startExecution` is not
under `src`.  §4.6: first increments the 32-bit `timelineCtr`, then appends
`signalNotify(timelineSignal, timelineCtr, queueType)` as the buffer's final
command, then flushes the staged buffer into that class's queue page via
`submitToFifo`, and finally (on successful flush) resets the command buffer
for new staging. -/
def startExecution (q : NvCommandQueue) (queueType : QueueType) :
    libreCudaStatus_t × NvCommandQueue :=
  if q.initialized then
    let ctr := (q.timelineCtr + 1) % 2 ^ 32
    let q1 := { q with timelineCtr := ctr }
    let q2 := (signalNotify q1 timelineSlot ctr queueType).2
    let r := submitToFifo (pageFor q2 queueType) q2.commandBuffer
    if r.1 = LIBRECUDA_SUCCESS then
      (LIBRECUDA_SUCCESS, { setPage q2 queueType r.2 with commandBuffer := [] })
    else
      (r.1, q2)
  else
    (LIBRECUDA_ERROR_NOT_INITIALIZED, q)

/-- Bounded polling loop: the device is modelled by the sequence of values an
observer reads from the timeline signal's device-visible `value` field at
successive polls; the loop returns success at the first poll that reaches the
target and a timeout error once the retry bound is exhausted. -/
def awaitLoop (target : Nat) (poll : Nat → Nat) : Nat → Nat → libreCudaStatus_t
  | _, 0 => LIBRECUDA_ERROR_TIMEOUT
  | i, fuel + 1 =>
    if target ≤ poll i then LIBRECUDA_SUCCESS else awaitLoop target poll (i + 1) fuel

/-- Modelled from the spec: the body of `NvCommandQueue::awaitExecution` is not
under `src`.  §4.7/§7: blocks the caller until the timeline signal's
device-visible value reaches the `timelineCtr` recorded at the most recent
`startExecution` (nothing else advances the counter, so that is the current
`timelineCtr`), with a bounded wait that surfaces a timeout error on a stalled
device instead of blocking forever. -/
def awaitExecution (q : NvCommandQueue) (poll : Nat → Nat) (bound : Nat) :
    libreCudaStatus_t :=
  if q.initialized then awaitLoop q.timelineCtr poll 0 bound
  else LIBRECUDA_ERROR_NOT_INITIALIZED

/-- Fold a list of `enqueue` calls (method word paired with its argument
words) over the queue, in call order. -/
def stageCalls (q : NvCommandQueue) (calls : List (Nat × List Nat)) :
    NvCommandQueue :=
  calls.foldl (fun acc c => (enqueue acc c.1 c.2).2) q

/-- Perform `k` successive `obtainSignal` calls, collecting the statuses in
call order together with the final queue state. -/
def obtainSeq (q : NvCommandQueue) : Nat → List libreCudaStatus_t × NvCommandQueue
  | 0 => ([], q)
  | k + 1 =>
    let r := obtainSignal q
    let rest := obtainSeq r.2.2 k
    (r.1 :: rest.1, rest.2)

/-- Concatenation of the encodings of a list of `enqueue` calls, in call
order. -/
def encodeCalls : List (Nat × List Nat) → List Nat
  | [] => []
  | c :: cs => encodeCall c ++ encodeCalls cs

/-- Combined CPU/GPU state: the queue together with the (ghost) list of notify
targets that have been submitted to the device but not yet executed by it, in
submission order. -/
structure SysState where
  queue : NvCommandQueue
  pending : List Nat
deriving DecidableEq, Repr

/-- State right after a successful `initializeQueue` on a fresh queue: no
asynchronous work is outstanding. -/
def initSys (pageCapacity poolSize : Nat) : SysState :=
  { queue := (initializeQueue freshQueue pageCapacity poolSize).2, pending := [] }

/-- One step of the combined system, indexed by the number of `startExecution`
calls performed so far.  CPU steps are the queue operations (those that
return success); the device step executes the oldest submitted notify,
setting the timeline signal's device-visible value to its target. -/
inductive SysStep : Nat × SysState → Nat × SysState → Prop where
  | enq (n : Nat) (s : SysState) (m : Nat) (args : List Nat)
      (h : (enqueue s.queue m args).1 = LIBRECUDA_SUCCESS) :
      SysStep (n, s) (n, { queue := (enqueue s.queue m args).2, pending := s.pending })
  | wait (n : Nat) (s : SysState) (slot target : Nat)
      (h : (signalWait s.queue slot target).1 = LIBRECUDA_SUCCESS) :
      SysStep (n, s)
        (n, { queue := (signalWait s.queue slot target).2, pending := s.pending })
  | obtain (n : Nat) (s : SysState)
      (h : (obtainSignal s.queue).1 = LIBRECUDA_SUCCESS) :
      SysStep (n, s) (n, { queue := (obtainSignal s.queue).2.2, pending := s.pending })
  | release (n : Nat) (s : SysState) (slot : Nat)
      (h : (releaseSignal s.queue slot).1 = LIBRECUDA_SUCCESS) :
      SysStep (n, s)
        (n, { queue := (releaseSignal s.queue slot).2, pending := s.pending })
  | start (n : Nat) (s : SysState) (t : QueueType)
      (h : (startExecution s.queue t).1 = LIBRECUDA_SUCCESS) :
      SysStep (n, s)
        (n + 1, { queue := (startExecution s.queue t).2,
                  pending := s.pending ++ [(s.queue.timelineCtr + 1) % 2 ^ 32] })
  | dev (n : Nat) (s : SysState) (t : Nat) (rest : List Nat) (ts : Nat)
      (h : s.pending = t :: rest) :
      SysStep (n, s)
        (n, { queue := { s.queue with
                timelineSignal := { value := t, time_stamp := ts } },
              pending := rest })

/-- States reachable from a given start state, carrying the count of
`startExecution` steps taken. -/
inductive SysReach (s0 : SysState) : Nat × SysState → Prop where
  | init : SysReach s0 (0, s0)
  | step {p p' : Nat × SysState} : SysReach s0 p → SysStep p p' → SysReach s0 p'

/-- The inductive invariant of the combined system: the queue stays
initialized, and there are ghost counts `d ≤ n` (notifies executed by the
device, and `startExecution` calls made) such that the device-visible value is
`d` reduced mod `2 ^ 32`, the timeline counter is `n` reduced mod `2 ^ 32`,
and the outstanding notify targets are exactly `d + 1, …, n`, each reduced mod
`2 ^ 32`, oldest first. -/
def SysInv (n : Nat) (s : SysState) : Prop :=
  s.queue.initialized = true ∧
  ∃ d, d ≤ n ∧ s.queue.timelineSignal.value = d % 2 ^ 32 ∧
    s.queue.timelineCtr = n % 2 ^ 32 ∧
    s.pending = (List.range' (d + 1) (n - d)).map (fun x => x % 2 ^ 32)

/-- The successor state of one successful `startExecution` step of the
combined system (the state `SysStep.start` moves to). -/
def startStep (t : QueueType) (s : SysState) : SysState :=
  { queue := (startExecution s.queue t).2
    pending := s.pending ++ [(s.queue.timelineCtr + 1) % 2 ^ 32] }

/-- Iterated application of `startStep`. -/
def iterStart (t : QueueType) : Nat → SysState → SysState
  | 0, s => s
  | k + 1, s => startStep t (iterStart t k s)

/-- Signal-pool states reachable from an initial queue by `obtainSignal` and
`releaseSignal` calls, together with the (ghost) list of slots currently held
by live signal handles.  A handle is released only while it is live (the
spec's caller contract for `releaseSignal`). -/
inductive SigReach (q0 : NvCommandQueue) : NvCommandQueue × List Nat → Prop where
  | init : SigReach q0 (q0, [])
  | obtain {q : NvCommandQueue} {live : List Nat} {slot : Nat} :
      SigReach q0 (q, live) → (obtainSignal q).2.1 = some slot →
      SigReach q0 ((obtainSignal q).2.2, slot :: live)
  | release {q : NvCommandQueue} {live : List Nat} {slot : Nat} :
      SigReach q0 (q, live) → slot ∈ live →
      SigReach q0 ((releaseSignal q slot).2, live.erase slot)

/-- Invariant of the signal pool: the queue is usable, the free list has no
duplicate slots, the held slots have no duplicates, and no slot is both free
and held. -/
def SigInv (p : NvCommandQueue × List Nat) : Prop :=
  p.1.initialized = true ∧ p.1.freeSignals.Nodup ∧ p.2.Nodup ∧
    ∀ x ∈ p.1.freeSignals, x ∉ p.2

/-- A small concrete initialized queue used to instantiate theorems with
hypotheses: page capacity 64 words, pool of 4 signals. -/
def qInit : NvCommandQueue := (initializeQueue freshQueue 64 4).2

/-! ### Helper lemmas -/

theorem notifyWords_length (slot target : Nat) (t : QueueType) :
    (notifyWords slot target t).length = 3 := by
  cases t <;> rfl

theorem enqueue_ok (q : NvCommandQueue) (m : Nat) (args : List Nat)
    (h : q.initialized = true) :
    enqueue q m args =
      (LIBRECUDA_SUCCESS,
        { q with commandBuffer := q.commandBuffer ++ encodeCall (m, args) }) := by
  simp [enqueue, h]

theorem enqueue_success_initialized (q : NvCommandQueue) (m : Nat)
    (args : List Nat) (h : (enqueue q m args).1 = LIBRECUDA_SUCCESS) :
    q.initialized = true := by
  cases hq : q.initialized
  · simp [enqueue, hq] at h
  · rfl

theorem signalWait_success_initialized (q : NvCommandQueue) (slot target : Nat)
    (h : (signalWait q slot target).1 = LIBRECUDA_SUCCESS) :
    q.initialized = true := by
  cases hq : q.initialized
  · simp [signalWait, hq] at h
  · rfl

theorem obtainSignal_success_initialized (q : NvCommandQueue)
    (h : (obtainSignal q).1 = LIBRECUDA_SUCCESS) : q.initialized = true := by
  cases hq : q.initialized
  · simp [obtainSignal, hq] at h
  · rfl

theorem releaseSignal_success_initialized (q : NvCommandQueue) (slot : Nat)
    (h : (releaseSignal q slot).1 = LIBRECUDA_SUCCESS) : q.initialized = true := by
  cases hq : q.initialized
  · simp [releaseSignal, hq] at h
  · rfl

theorem startExecution_success_initialized (q : NvCommandQueue) (t : QueueType)
    (h : (startExecution q t).1 = LIBRECUDA_SUCCESS) : q.initialized = true := by
  cases hq : q.initialized
  · simp [startExecution, hq] at h
  · rfl

theorem stageCalls_ok (calls : List (Nat × List Nat)) :
    ∀ q : NvCommandQueue, q.initialized = true →
      stageCalls q calls =
        { q with commandBuffer := q.commandBuffer ++ encodeCalls calls } := by
  induction calls with
  | nil => intro q _; simp [stageCalls, encodeCalls]
  | cons c cs ih =>
      intro q h
      have hstep : stageCalls q (c :: cs) = stageCalls (enqueue q c.1 c.2).2 cs := rfl
      rw [hstep, enqueue_ok q c.1 c.2 h, ih _ (by simp [h])]
      simp [encodeCalls]

theorem startExecution_post (q : NvCommandQueue) (t : QueueType)
    (h : q.initialized = true) :
    (startExecution q t).2.timelineCtr = (q.timelineCtr + 1) % 2 ^ 32 ∧
    (startExecution q t).2.initialized = true ∧
    (startExecution q t).2.timelineSignal = q.timelineSignal ∧
    (startExecution q t).2.freeSignals = q.freeSignals ∧
    (startExecution q t).2.signalPoolSize = q.signalPoolSize := by
  cases t <;>
    simp only [startExecution, h, if_true, signalNotify, submitToFifo, pageFor,
      setPage] <;>
    split <;> simp_all

theorem startExecution_fit (q : NvCommandQueue) (t : QueueType)
    (h : q.initialized = true)
    (hfit : (pageFor q t).commandWritePtr + (q.commandBuffer.length + 3) ≤
      (pageFor q t).capacity) :
    (startExecution q t).1 = LIBRECUDA_SUCCESS ∧
    (startExecution q t).2.commandBuffer = [] ∧
    pageFor (startExecution q t).2 t =
      { commandQueueSpace := (pageFor q t).commandQueueSpace ++
          (q.commandBuffer ++
            notifyWords timelineSlot ((q.timelineCtr + 1) % 2 ^ 32) t)
        commandWritePtr := (pageFor q t).commandWritePtr +
          (q.commandBuffer.length + 3)
        capacity := (pageFor q t).capacity } := by
  cases t <;>
    simp_all [startExecution, signalNotify, submitToFifo, pageFor, setPage,
      notifyWords_length]

theorem awaitLoop_spec (target : Nat) (poll : Nat → Nat) :
    ∀ fuel i,
      (awaitLoop target poll i fuel = LIBRECUDA_SUCCESS ↔
        ∃ k, k < fuel ∧ target ≤ poll (i + k)) ∧
      (awaitLoop target poll i fuel = LIBRECUDA_SUCCESS ∨
        awaitLoop target poll i fuel = LIBRECUDA_ERROR_TIMEOUT) := by
  intro fuel
  induction fuel with
  | zero => intro i; simp [awaitLoop]
  | succ f ih =>
      intro i
      by_cases hp : target ≤ poll i
      · refine ⟨?_, Or.inl (by simp [awaitLoop, hp])⟩
        simp only [awaitLoop, hp, if_true]
        exact ⟨fun _ => ⟨0, by omega, by simpa using hp⟩, fun _ => trivial⟩
      · have hrec : awaitLoop target poll i (f + 1) = awaitLoop target poll (i + 1) f := by
          simp [awaitLoop, hp]
        refine ⟨?_, by rw [hrec]; exact (ih (i + 1)).2⟩
        rw [hrec, (ih (i + 1)).1]
        constructor
        · rintro ⟨k, hk, hle⟩
          exact ⟨k + 1, by omega, by
            have : i + 1 + k = i + (k + 1) := by omega
            rwa [this] at hle⟩
        · rintro ⟨k, hk, hle⟩
          cases k with
          | zero => exact absurd (by simpa using hle) hp
          | succ k' =>
              exact ⟨k', by omega, by
                have : i + (k' + 1) = i + 1 + k' := by omega
                rwa [this] at hle⟩

theorem range1_concat (s n : Nat) :
    List.range' s (n + 1) = List.range' s n ++ [s + n] := by
  simpa using @List.range'_concat 1 s n

theorem obtainSignal_post (q : NvCommandQueue) :
    (obtainSignal q).2.2.initialized = q.initialized ∧
    (obtainSignal q).2.2.timelineSignal = q.timelineSignal ∧
    (obtainSignal q).2.2.timelineCtr = q.timelineCtr ∧
    (obtainSignal q).2.2.commandBuffer = q.commandBuffer ∧
    (obtainSignal q).2.2.computeQueuePage = q.computeQueuePage ∧
    (obtainSignal q).2.2.dmaQueuePage = q.dmaQueuePage := by
  cases hq : q.initialized <;> cases hf : q.freeSignals <;>
    simp [obtainSignal, hq, hf]

theorem releaseSignal_post (q : NvCommandQueue) (slot : Nat) :
    (releaseSignal q slot).2.initialized = q.initialized ∧
    (releaseSignal q slot).2.timelineSignal = q.timelineSignal ∧
    (releaseSignal q slot).2.timelineCtr = q.timelineCtr ∧
    (releaseSignal q slot).2.commandBuffer = q.commandBuffer ∧
    (releaseSignal q slot).2.computeQueuePage = q.computeQueuePage ∧
    (releaseSignal q slot).2.dmaQueuePage = q.dmaQueuePage := by
  cases hq : q.initialized <;> simp [releaseSignal, hq]

theorem enqueue_post (q : NvCommandQueue) (m : Nat) (args : List Nat) :
    (enqueue q m args).2.initialized = q.initialized ∧
    (enqueue q m args).2.timelineSignal = q.timelineSignal ∧
    (enqueue q m args).2.timelineCtr = q.timelineCtr ∧
    (enqueue q m args).2.freeSignals = q.freeSignals ∧
    (enqueue q m args).2.computeQueuePage = q.computeQueuePage ∧
    (enqueue q m args).2.dmaQueuePage = q.dmaQueuePage := by
  cases hq : q.initialized <;> simp [enqueue, hq]

theorem signalWait_post (q : NvCommandQueue) (slot target : Nat) :
    (signalWait q slot target).2.initialized = q.initialized ∧
    (signalWait q slot target).2.timelineSignal = q.timelineSignal ∧
    (signalWait q slot target).2.timelineCtr = q.timelineCtr ∧
    (signalWait q slot target).2.freeSignals = q.freeSignals := by
  cases hq : q.initialized <;> simp [signalWait, hq]

theorem sysInv_init (cap N : Nat) : SysInv 0 (initSys cap N) := by
  refine ⟨by simp [initSys, initializeQueue, freshQueue], 0, le_refl 0, ?_, ?_, ?_⟩ <;>
    simp [initSys, initializeQueue, freshQueue]

theorem sysInv_step {p p' : Nat × SysState} (hstep : SysStep p p')
    (hinv : SysInv p.1 p.2) : SysInv p'.1 p'.2 := by
  obtain ⟨hin, d, hd, hv, hc, hp⟩ := hinv
  cases hstep with
  | enq n s m args h =>
      have hi := enqueue_success_initialized _ _ _ h
      obtain ⟨e1, e2, e3, _, _, _⟩ := enqueue_post s.queue m args
      exact ⟨by rw [e1]; exact hin, d, hd, by rw [e2]; exact hv, by rw [e3]; exact hc, hp⟩
  | wait n s slot target h =>
      obtain ⟨e1, e2, e3, _⟩ := signalWait_post s.queue slot target
      exact ⟨by rw [e1]; exact hin, d, hd, by rw [e2]; exact hv, by rw [e3]; exact hc, hp⟩
  | obtain n s h =>
      obtain ⟨e1, e2, e3, _, _, _⟩ := obtainSignal_post s.queue
      exact ⟨by rw [e1]; exact hin, d, hd, by rw [e2]; exact hv, by rw [e3]; exact hc, hp⟩
  | release n s slot h =>
      obtain ⟨e1, e2, e3, _, _, _⟩ := releaseSignal_post s.queue slot
      exact ⟨by rw [e1]; exact hin, d, hd, by rw [e2]; exact hv, by rw [e3]; exact hc, hp⟩
  | start n s t h =>
      obtain ⟨e1, e2, e3, _, _⟩ := startExecution_post s.queue t hin
      refine ⟨e2, d, Nat.le_succ_of_le hd, by rw [e3]; exact hv, ?_, ?_⟩
      · rw [e1, hc]; omega
      · have hs : n + 1 - d = (n - d) + 1 := by omega
        rw [hp, hc, hs, range1_concat, List.map_append]
        have : d + 1 + (n - d) = n + 1 := by omega
        simp [this]
  | dev n s t rest ts h =>
      rw [hp] at h
      have hnd : n - d ≠ 0 := by
        intro h0
        rw [h0] at h
        simp at h
      obtain ⟨m, hm⟩ : ∃ m, n - d = m + 1 := ⟨n - d - 1, by omega⟩
      rw [hm, List.range'_succ _ _ 1, List.map_cons] at h
      obtain ⟨ht, hrest⟩ := List.cons.inj h
      refine ⟨hin, d + 1, by omega, by simp [← ht], hc, ?_⟩
      have : n - (d + 1) = m := by omega
      rw [this]
      simpa [Nat.add_assoc] using hrest.symm

theorem sysReach_inv {s0 : SysState} (h0 : SysInv 0 s0) :
    ∀ p : Nat × SysState, SysReach s0 p → SysInv p.1 p.2 := by
  intro p hr
  induction hr with
  | init => exact h0
  | step _ hstep ih => exact sysInv_step hstep ih

theorem iterStart_props : ∀ k : Nat, k ≤ 2 ^ 32 →
    (iterStart QueueType.COMPUTE k (initSys (2 ^ 40) 4)).queue.initialized = true ∧
    (iterStart QueueType.COMPUTE k (initSys (2 ^ 40) 4)).queue.timelineCtr = k % 2 ^ 32 ∧
    (iterStart QueueType.COMPUTE k (initSys (2 ^ 40) 4)).queue.commandBuffer = [] ∧
    (iterStart QueueType.COMPUTE k
      (initSys (2 ^ 40) 4)).queue.computeQueuePage.commandWritePtr = 3 * k ∧
    (iterStart QueueType.COMPUTE k
      (initSys (2 ^ 40) 4)).queue.computeQueuePage.capacity = 2 ^ 40 ∧
    SysReach (initSys (2 ^ 40) 4)
      (k, iterStart QueueType.COMPUTE k (initSys (2 ^ 40) 4)) := by
  intro k
  induction k with
  | zero =>
      intro _
      refine ⟨?_, ?_, ?_, ?_, ?_, SysReach.init⟩ <;>
        simp [iterStart, initSys, initializeQueue, freshQueue]
  | succ k ih =>
      intro hk
      obtain ⟨h1, h2, h3, h4, h5, h6⟩ := ih (by omega)
      have hfit : (pageFor (iterStart QueueType.COMPUTE k
            (initSys (2 ^ 40) 4)).queue QueueType.COMPUTE).commandWritePtr +
          ((iterStart QueueType.COMPUTE k
            (initSys (2 ^ 40) 4)).queue.commandBuffer.length + 3) ≤
          (pageFor (iterStart QueueType.COMPUTE k
            (initSys (2 ^ 40) 4)).queue QueueType.COMPUTE).capacity := by
        show (iterStart QueueType.COMPUTE k
            (initSys (2 ^ 40) 4)).queue.computeQueuePage.commandWritePtr + _ ≤
          (iterStart QueueType.COMPUTE k
            (initSys (2 ^ 40) 4)).queue.computeQueuePage.capacity
        rw [h3, h4, h5]
        simp only [List.length_nil]
        omega
      obtain ⟨f1, f2, f3⟩ := startExecution_fit _ QueueType.COMPUTE h1 hfit
      obtain ⟨p1, p2, _, _, _⟩ := startExecution_post
        (iterStart QueueType.COMPUTE k (initSys (2 ^ 40) 4)).queue
        QueueType.COMPUTE h1
      have hiter : iterStart QueueType.COMPUTE (k + 1) (initSys (2 ^ 40) 4) =
          startStep QueueType.COMPUTE
            (iterStart QueueType.COMPUTE k (initSys (2 ^ 40) 4)) := rfl
      refine ⟨?_, ?_, ?_, ?_, ?_, ?_⟩
      · rw [hiter]; exact p2
      · rw [hiter]
        show (startExecution _ QueueType.COMPUTE).2.timelineCtr = _
        rw [p1, h2]; omega
      · rw [hiter]; exact f2
      · rw [hiter]
        show (pageFor (startExecution _ QueueType.COMPUTE).2
          QueueType.COMPUTE).commandWritePtr = _
        rw [f3]
        show (pageFor _ QueueType.COMPUTE).commandWritePtr + _ = _
        show (iterStart QueueType.COMPUTE k
            (initSys (2 ^ 40) 4)).queue.computeQueuePage.commandWritePtr + _ = _
        rw [h3, h4]
        simp only [List.length_nil]
        omega
      · rw [hiter]
        show (pageFor (startExecution _ QueueType.COMPUTE).2
          QueueType.COMPUTE).capacity = _
        rw [f3]
        exact h5
      · exact SysReach.step h6 (SysStep.start k _ QueueType.COMPUTE f1)

theorem sysStep_ctr {n n' : Nat} {s s' : SysState}
    (hstep : SysStep (n, s) (n', s')) (hin : s.queue.initialized = true) :
    (s'.queue.timelineCtr = s.queue.timelineCtr ∧ n' = n) ∨
    (s'.queue.timelineCtr = (s.queue.timelineCtr + 1) % 2 ^ 32 ∧ n' = n + 1) := by
  cases hstep with
  | enq n s m args h => exact Or.inl ⟨(enqueue_post s.queue m args).2.2.1, rfl⟩
  | wait n s slot target h =>
      exact Or.inl ⟨(signalWait_post s.queue slot target).2.2.1, rfl⟩
  | obtain n s h => exact Or.inl ⟨(obtainSignal_post s.queue).2.2.1, rfl⟩
  | release n s slot h => exact Or.inl ⟨(releaseSignal_post s.queue slot).2.2.1, rfl⟩
  | start n s t h => exact Or.inr ⟨(startExecution_post s.queue t hin).1, rfl⟩
  | dev n s t rest ts h => exact Or.inl ⟨rfl, rfl⟩

theorem obtainSignal_some (q : NvCommandQueue) (slot : Nat)
    (h : (obtainSignal q).2.1 = some slot) :
    ∃ rest, q.freeSignals = slot :: rest ∧
      (obtainSignal q).2.2 = { q with freeSignals := rest } := by
  cases hq : q.initialized
  · simp [obtainSignal, hq] at h
  · cases hf : q.freeSignals with
    | nil => simp [obtainSignal, hq, hf] at h
    | cons i rest =>
        have hi : i = slot := by simpa [obtainSignal, hq, hf] using h
        subst hi
        exact ⟨rest, rfl, by simp [obtainSignal, hq, hf]⟩

theorem sigInv_init (cap N : Nat) :
    SigInv ((initializeQueue freshQueue cap N).2, []) := by
  refine ⟨by simp [initializeQueue, freshQueue], ?_, List.nodup_nil, by simp⟩
  simp [initializeQueue, freshQueue]
  exact List.nodup_range' 1 (N - 1)

theorem sigInv_preserved (q0 : NvCommandQueue) :
    ∀ p, SigReach q0 p → SigInv (q0, []) → SigInv p := by
  intro p hr h0
  induction hr with
  | init => exact h0
  | @obtain q live slot _ hsome ih =>
      obtain ⟨hin, hfree, hlive, hdisj⟩ := ih
      obtain ⟨rest, hf, hq2⟩ := obtainSignal_some q slot hsome
      rw [hf] at hfree hdisj
      refine ⟨by rw [hq2]; simpa using hin, by rw [hq2]; simpa using hfree.of_cons, ?_, ?_⟩
      · exact List.Nodup.cons (hdisj slot (by simp)) hlive
      · intro x hx hmem
        rw [hq2] at hx
        simp at hx
        rcases List.mem_cons.mp hmem with h1 | h1
        · subst h1
          exact (List.nodup_cons.mp hfree).1 hx
        · exact hdisj x (by simp [hx]) h1
  | @release q live slot _ hmem ih =>
      obtain ⟨hin, hfree, hlive, hdisj⟩ := ih
      have hrel : (releaseSignal q slot).2 =
          { q with freeSignals := q.freeSignals ++ [slot] } := by
        simp [releaseSignal, show q.initialized = true from hin]
      refine ⟨by rw [hrel]; simpa using hin, ?_, hlive.erase slot, ?_⟩
      · rw [hrel]
        simp only
        refine List.Nodup.append hfree (List.nodup_singleton slot) ?_
        intro a ha hb
        simp at hb
        subst hb
        exact hdisj a ha hmem
      · intro x hx hmemE
        rw [hrel] at hx
        simp at hx
        rcases hx with h1 | h1
        · exact hdisj x h1 (List.mem_of_mem_erase hmemE)
        · subst h1
          exact hlive.not_mem_erase hmemE

theorem obtainSeq_drain : ∀ (fs : List Nat) (q : NvCommandQueue),
    q.initialized = true → q.freeSignals = fs →
      (obtainSeq q fs.length).1 = List.replicate fs.length LIBRECUDA_SUCCESS ∧
      (obtainSeq q fs.length).2 = { q with freeSignals := [] } := by
  intro fs
  induction fs with
  | nil =>
      intro q h hf
      refine ⟨rfl, ?_⟩
      show q = _
      rw [← hf]
  | cons i rest ih =>
      intro q h hf
      have hob : obtainSignal q = (LIBRECUDA_SUCCESS, some i,
          { q with freeSignals := rest }) := by
        simp [obtainSignal, h, hf]
      have hstep : obtainSeq q (i :: rest).length =
          ((obtainSignal q).1 :: (obtainSeq (obtainSignal q).2.2 rest.length).1,
            (obtainSeq (obtainSignal q).2.2 rest.length).2) := rfl
      obtain ⟨ih1, ih2⟩ := ih { q with freeSignals := rest } (by simpa using h) (by simp)
      rw [hstep, hob]
      refine ⟨?_, by simpa using ih2⟩
      simp only [List.length_cons, List.replicate_succ]
      exact congrArg (LIBRECUDA_SUCCESS :: ·) (by simpa using ih1)

theorem startExecution_other_page (q : NvCommandQueue) (t t' : QueueType)
    (h : q.initialized = true) (hne : t' ≠ t) :
    pageFor (startExecution q t).2 t' = pageFor q t' := by
  cases t <;> cases t' <;> first
    | exact absurd rfl hne
    | (simp only [startExecution, h, if_true, signalNotify, submitToFifo, pageFor,
        setPage]
       split <;> simp)

theorem pageFor_compute (q : NvCommandQueue) :
    pageFor q QueueType.COMPUTE = q.computeQueuePage := rfl

theorem iterStart_succ (t : QueueType) (k : Nat) (s : SysState) :
    iterStart t (k + 1) s = startStep t (iterStart t k s) := rfl

/-! ### Claim theorems -/

/-- C1: for every sequence of `enqueue` calls staged between two
`startExecution` calls, each `enqueue(method, arguments)` appends the encoded
method word followed by its argument words, in that order, to the end of the
command buffer, and the words copied into the queue page at the next
`startExecution` are the concatenation of those words in call order — no
reordering, no drops — followed only by the completion-notify command that
`startExecution` itself stages through the same `enqueue` path before
flushing. -/
theorem enqueue_concat_flush (q : NvCommandQueue) (t : QueueType)
    (calls : List (Nat × List Nat)) (h : q.initialized = true)
    (hbuf : q.commandBuffer = [])
    (hfit : (pageFor q t).commandWritePtr + ((encodeCalls calls).length + 3) ≤
      (pageFor q t).capacity) :
    (stageCalls q calls).commandBuffer = encodeCalls calls ∧
    (startExecution (stageCalls q calls) t).1 = LIBRECUDA_SUCCESS ∧
    (pageFor (startExecution (stageCalls q calls) t).2 t).commandQueueSpace =
      (pageFor q t).commandQueueSpace ++
        (encodeCalls calls ++
          notifyWords timelineSlot ((q.timelineCtr + 1) % 2 ^ 32) t) := by
  have hq : stageCalls q calls = { q with commandBuffer := encodeCalls calls } := by
    rw [stageCalls_ok calls q h, hbuf]
    simp
  have hpage : pageFor (stageCalls q calls) t = pageFor q t := by
    rw [hq]; cases t <;> rfl
  have hfit2 : (pageFor (stageCalls q calls) t).commandWritePtr +
      ((stageCalls q calls).commandBuffer.length + 3) ≤
      (pageFor (stageCalls q calls) t).capacity := by
    rw [hpage, hq]
    simpa using hfit
  have hin2 : (stageCalls q calls).initialized = true := by rw [hq]; simpa using h
  obtain ⟨f1, _, f3⟩ := startExecution_fit (stageCalls q calls) t hin2 hfit2
  refine ⟨by rw [hq], f1, ?_⟩
  rw [f3, hpage, hq]

/-- C1 witness: a concrete staged sequence of two calls flushed into the
compute page of the freshly initialized queue. -/
theorem enqueue_concat_flush_witness :
    (stageCalls qInit [(7, [1, 2]), (9, [3])]).commandBuffer =
      encodeCalls [(7, [1, 2]), (9, [3])] ∧
    (startExecution (stageCalls qInit [(7, [1, 2]), (9, [3])])
      QueueType.COMPUTE).1 = LIBRECUDA_SUCCESS ∧
    (pageFor (startExecution (stageCalls qInit [(7, [1, 2]), (9, [3])])
        QueueType.COMPUTE).2 QueueType.COMPUTE).commandQueueSpace =
      (pageFor qInit QueueType.COMPUTE).commandQueueSpace ++
        (encodeCalls [(7, [1, 2]), (9, [3])] ++
          notifyWords timelineSlot ((qInit.timelineCtr + 1) % 2 ^ 32)
            QueueType.COMPUTE) :=
  enqueue_concat_flush qInit QueueType.COMPUTE [(7, [1, 2]), (9, [3])]
    (by decide) (by decide) (by decide)

/-- C2: on an initialized queue, `startExecution(queueType)` first increments
`timelineCtr` (mod `2 ^ 32`), then appends the
`signalNotify(timelineSignal, timelineCtr, queueType)` encoding as the final
command of the staged buffer, then flushes the whole staged buffer into that
class's queue page via `submitToFifo` (advancing the write cursor; the other
class's page is untouched), and finally resets the command buffer to empty
for new staging. -/
theorem startExecution_flushes (q : NvCommandQueue) (t : QueueType)
    (h : q.initialized = true)
    (hfit : (pageFor q t).commandWritePtr + (q.commandBuffer.length + 3) ≤
      (pageFor q t).capacity) :
    (startExecution q t).1 = LIBRECUDA_SUCCESS ∧
    (startExecution q t).2.timelineCtr = (q.timelineCtr + 1) % 2 ^ 32 ∧
    (pageFor (startExecution q t).2 t).commandQueueSpace =
      (pageFor q t).commandQueueSpace ++
        (q.commandBuffer ++
          notifyWords timelineSlot ((q.timelineCtr + 1) % 2 ^ 32) t) ∧
    (pageFor (startExecution q t).2 t).commandWritePtr =
      (pageFor q t).commandWritePtr + (q.commandBuffer.length + 3) ∧
    (∀ t', t' ≠ t → pageFor (startExecution q t).2 t' = pageFor q t') ∧
    (startExecution q t).2.commandBuffer = [] := by
  obtain ⟨f1, f2, f3⟩ := startExecution_fit q t h hfit
  obtain ⟨p1, _, _, _, _⟩ := startExecution_post q t h
  refine ⟨f1, p1, ?_, ?_, ?_, f2⟩
  · rw [f3]
  · rw [f3]
  · intro t' hne
    exact startExecution_other_page q t t' h hne

/-- C2 witness: flush of the fresh queue's empty buffer into the DMA page. -/
theorem startExecution_flushes_witness :
    (startExecution qInit QueueType.DMA).1 = LIBRECUDA_SUCCESS ∧
    (startExecution qInit QueueType.DMA).2.timelineCtr =
      (qInit.timelineCtr + 1) % 2 ^ 32 ∧
    (pageFor (startExecution qInit QueueType.DMA).2
        QueueType.DMA).commandQueueSpace =
      (pageFor qInit QueueType.DMA).commandQueueSpace ++
        (qInit.commandBuffer ++
          notifyWords timelineSlot ((qInit.timelineCtr + 1) % 2 ^ 32)
            QueueType.DMA) := by
  obtain ⟨h1, h2, h3, _, _, _⟩ :=
    startExecution_flushes qInit QueueType.DMA (by decide) (by decide)
  exact ⟨h1, h2, h3⟩

/-- C3: on an initialized queue, `awaitExecution` (modelled as bounded polling
of the device-visible timeline-signal value) returns success exactly when some
poll within the bound observes a value that has reached the `timelineCtr`
recorded at the most recent `startExecution`, and otherwise returns a timeout
error — it always returns one of the two, never blocking forever.  All other
operations of the model are straight-line state updates; this is the only one
with a waiting loop. -/
theorem awaitExecution_blocks_until (q : NvCommandQueue) (poll : Nat → Nat)
    (bound : Nat) (h : q.initialized = true) :
    (awaitExecution q poll bound = LIBRECUDA_SUCCESS ↔
      ∃ k, k < bound ∧ q.timelineCtr ≤ poll k) ∧
    (awaitExecution q poll bound = LIBRECUDA_SUCCESS ∨
      awaitExecution q poll bound = LIBRECUDA_ERROR_TIMEOUT) := by
  have hs := awaitLoop_spec q.timelineCtr poll bound 0
  constructor
  · rw [show awaitExecution q poll bound = awaitLoop q.timelineCtr poll 0 bound
      from by simp [awaitExecution, h]]
    rw [hs.1]
    simp
  · rw [show awaitExecution q poll bound = awaitLoop q.timelineCtr poll 0 bound
      from by simp [awaitExecution, h]]
    exact hs.2

/-- C3 witness: a device trace that reaches the target at the second poll is
seen within bound 3, and on the all-zero trace with target 1 the wait times
out instead of hanging. -/
theorem awaitExecution_blocks_until_witness :
    (awaitExecution qInit (fun k => k) 3 = LIBRECUDA_SUCCESS ↔
      ∃ k, k < 3 ∧ qInit.timelineCtr ≤ (fun k : Nat => k) k) ∧
    (awaitExecution qInit (fun k => k) 3 = LIBRECUDA_SUCCESS ∨
      awaitExecution qInit (fun k => k) 3 = LIBRECUDA_ERROR_TIMEOUT) :=
  awaitExecution_blocks_until qInit (fun k => k) 3 (by decide)

/-- C4 counterexample: `timelineCtr` is a 32-bit counter, so it is NOT true
that it never decreases over reachable states.  Concretely, from the queue
initialized with page capacity `2 ^ 40` and pool size 4, the state reached by
`2 ^ 32 - 1` successful `startExecution` steps has `timelineCtr = 2 ^ 32 - 1`,
and one further reachable `startExecution` step wraps it to `0` — a strict
decrease along a reachable transition. -/
theorem timelineCtr_wrap_counterexample :
    SysReach (initSys (2 ^ 40) 4)
      (2 ^ 32 - 1,
        iterStart QueueType.COMPUTE (2 ^ 32 - 1) (initSys (2 ^ 40) 4)) ∧
    SysStep
      (2 ^ 32 - 1,
        iterStart QueueType.COMPUTE (2 ^ 32 - 1) (initSys (2 ^ 40) 4))
      (2 ^ 32 - 1 + 1,
        iterStart QueueType.COMPUTE (2 ^ 32 - 1 + 1) (initSys (2 ^ 40) 4)) ∧
    (iterStart QueueType.COMPUTE (2 ^ 32 - 1 + 1)
      (initSys (2 ^ 40) 4)).queue.timelineCtr <
      (iterStart QueueType.COMPUTE (2 ^ 32 - 1)
        (initSys (2 ^ 40) 4)).queue.timelineCtr := by
  obtain ⟨h1, h2, h3, h4, h5, h6⟩ := iterStart_props (2 ^ 32 - 1) (by omega)
  obtain ⟨_, g2, _, _, _, _⟩ := iterStart_props (2 ^ 32 - 1 + 1) (by omega)
  have hfit : (pageFor (iterStart QueueType.COMPUTE (2 ^ 32 - 1)
        (initSys (2 ^ 40) 4)).queue QueueType.COMPUTE).commandWritePtr +
      ((iterStart QueueType.COMPUTE (2 ^ 32 - 1)
        (initSys (2 ^ 40) 4)).queue.commandBuffer.length + 3) ≤
      (pageFor (iterStart QueueType.COMPUTE (2 ^ 32 - 1)
        (initSys (2 ^ 40) 4)).queue QueueType.COMPUTE).capacity := by
    rw [pageFor_compute, h3, h4, h5]
    simp only [List.length_nil]
    omega
  obtain ⟨f1, _, _⟩ :=
    startExecution_fit _ QueueType.COMPUTE h1 hfit
  refine ⟨h6, ?_, ?_⟩
  · rw [iterStart_succ]
    exact SysStep.start (2 ^ 32 - 1) _ QueueType.COMPUTE f1
  · rw [g2, h2]
    norm_num

/-- C4 (amended): in every state of the combined CPU/device system reachable
from a freshly initialized queue, as long as fewer than `2 ^ 32`
`startExecution` calls have been made (the counter is 32-bit and wraps at
`2 ^ 32`, see the counterexample), the primary timeline signal's
device-visible value is at most `timelineCtr`, with equality exactly when no
asynchronous work is outstanding on that signal, and no further step below
the wrap decreases `timelineCtr`. -/
theorem timeline_invariant (cap N n : Nat) (s : SysState)
    (hr : SysReach (initSys cap N) (n, s)) (hn : n < 2 ^ 32) :
    s.queue.timelineSignal.value ≤ s.queue.timelineCtr ∧
    (s.queue.timelineSignal.value = s.queue.timelineCtr ↔ s.pending = []) ∧
    (∀ n' s', SysStep (n, s) (n', s') → n' < 2 ^ 32 →
      s.queue.timelineCtr ≤ s'.queue.timelineCtr) := by
  obtain ⟨hin, d, hd, hv, hc, hp⟩ :=
    sysReach_inv (sysInv_init cap N) (n, s) hr
  have hdm : d % 2 ^ 32 = d := by omega
  have hnm : n % 2 ^ 32 = n := by omega
  refine ⟨?_, ?_, ?_⟩
  · rw [hv, hc, hdm, hnm]; exact hd
  · rw [hv, hc, hdm, hnm, hp]
    constructor
    · intro hdn
      have : n - d = 0 := by omega
      simp [this]
    · intro hpe
      have : n - d = 0 := by
        by_contra hne
        rw [List.map_eq_nil_iff, List.range'_eq_nil] at hpe
        exact hne hpe
      omega
  · intro n' s' hstep hn'
    rcases sysStep_ctr hstep hin with ⟨he, _⟩ | ⟨he, hn1⟩
    · rw [he]
    · rw [he, hc, hnm]
      subst hn1
      omega

/-- C4 witness: the invariant instantiated at the freshly initialized queue,
which is reachable in zero steps. -/
theorem timeline_invariant_witness :
    (initSys 64 4).queue.timelineSignal.value ≤
      (initSys 64 4).queue.timelineCtr ∧
    ((initSys 64 4).queue.timelineSignal.value =
        (initSys 64 4).queue.timelineCtr ↔ (initSys 64 4).pending = []) := by
  have h := timeline_invariant 64 4 0 (initSys 64 4) SysReach.init (by norm_num)
  exact ⟨h.1, h.2.1⟩

/-- C5: over every sequence of `obtainSignal`/`releaseSignal` calls from an
initialized queue, a successful `obtainSignal` never returns a pool slot
currently held by a live handle (at most one owner per slot), and once the
free list is empty, `releaseSignal` followed by `obtainSignal` hands the very
same slot out again (recycling). -/
theorem obtainSignal_exclusive (cap N : Nat) (q : NvCommandQueue)
    (live : List Nat)
    (hr : SigReach (initializeQueue freshQueue cap N).2 (q, live)) :
    (∀ slot, (obtainSignal q).2.1 = some slot → slot ∉ live) ∧
    (∀ slot, q.freeSignals = [] →
      (obtainSignal (releaseSignal q slot).2).2.1 = some slot) := by
  obtain ⟨hin, hfree, hlive, hdisj⟩ :=
    sigInv_preserved (initializeQueue freshQueue cap N).2 (q, live) hr
      (sigInv_init cap N)
  constructor
  · intro slot hsome
    obtain ⟨rest, hf, _⟩ := obtainSignal_some q slot hsome
    exact hdisj slot (by rw [hf]; simp)
  · intro slot hf
    have hrel : (releaseSignal q slot).2 = { q with freeSignals := [slot] } := by
      simp [releaseSignal, show q.initialized = true from hin, hf]
    rw [hrel]
    simp [obtainSignal, show q.initialized = true from hin]

/-- C5 witness: on the fresh pool no slot is live, and after draining the
three free slots, releasing slot 5 and re-obtaining returns slot 5. -/
theorem obtainSignal_exclusive_witness :
    (1 : Nat) ∉ ([] : List Nat) ∧
    (obtainSignal (releaseSignal (obtainSignal (obtainSignal (obtainSignal
      (initializeQueue freshQueue 64 4).2).2.2).2.2).2.2 5).2).2.1 = some 5 := by
  refine ⟨(obtainSignal_exclusive 64 4 _ [] SigReach.init).1 1 (by decide), ?_⟩
  have h3 : SigReach (initializeQueue freshQueue 64 4).2
      ((obtainSignal (obtainSignal (obtainSignal
        (initializeQueue freshQueue 64 4).2).2.2).2.2).2.2, [3, 2, 1]) :=
    SigReach.obtain (SigReach.obtain (SigReach.obtain SigReach.init
      (by decide)) (by decide)) (by decide)
  exact (obtainSignal_exclusive 64 4 _ _ h3).2 5 (by decide)

/-- C6: with `n` slots free, the first `n` `obtainSignal` calls all succeed,
the `(n+1)`-th fails with a pool-exhausted error without blocking and leaves
the queue (in particular the free list) unchanged, and after one
`releaseSignal` a retried `obtainSignal` succeeds. -/
theorem pool_exhaustion (q : NvCommandQueue) (h : q.initialized = true) :
    (obtainSeq q q.freeSignals.length).1 =
      List.replicate q.freeSignals.length LIBRECUDA_SUCCESS ∧
    (obtainSignal (obtainSeq q q.freeSignals.length).2).1 =
      LIBRECUDA_ERROR_POOL_EXHAUSTED ∧
    (obtainSignal (obtainSeq q q.freeSignals.length).2).2.2 =
      (obtainSeq q q.freeSignals.length).2 ∧
    ∀ slot, (obtainSignal (releaseSignal
      (obtainSeq q q.freeSignals.length).2 slot).2).1 = LIBRECUDA_SUCCESS := by
  obtain ⟨d1, d2⟩ := obtainSeq_drain q.freeSignals q h rfl
  refine ⟨d1, ?_, ?_, ?_⟩
  · rw [d2]; simp [obtainSignal, h]
  · rw [d2]; simp [obtainSignal, h]
  · intro slot
    rw [d2]
    simp [releaseSignal, obtainSignal, h]

/-- C6 witness: draining the three free slots of the fresh pool, the fourth
obtain fails with pool-exhausted, and obtain succeeds again after releasing
slot 7. -/
theorem pool_exhaustion_witness :
    (obtainSeq qInit qInit.freeSignals.length).1 =
      List.replicate qInit.freeSignals.length LIBRECUDA_SUCCESS ∧
    (obtainSignal (obtainSeq qInit qInit.freeSignals.length).2).1 =
      LIBRECUDA_ERROR_POOL_EXHAUSTED ∧
    (obtainSignal (releaseSignal (obtainSeq qInit qInit.freeSignals.length).2
      7).2).1 = LIBRECUDA_SUCCESS := by
  obtain ⟨h1, h2, _, h4⟩ := pool_exhaustion qInit (by decide)
  exact ⟨h1, h2, h4 7⟩

/-- C7: every queue operation invoked while `initialized` is false returns the
not-initialized error and leaves the queue state (command buffer, queue pages,
free list, timeline counter — the entire record) unchanged. -/
theorem not_initialized_rejected (q : NvCommandQueue)
    (h : q.initialized = false) :
    (∀ m args, enqueue q m args = (LIBRECUDA_ERROR_NOT_INITIALIZED, q)) ∧
    (∀ t, startExecution q t = (LIBRECUDA_ERROR_NOT_INITIALIZED, q)) ∧
    (∀ poll bound,
      awaitExecution q poll bound = LIBRECUDA_ERROR_NOT_INITIALIZED) ∧
    obtainSignal q = (LIBRECUDA_ERROR_NOT_INITIALIZED, none, q) ∧
    (∀ slot, releaseSignal q slot = (LIBRECUDA_ERROR_NOT_INITIALIZED, q)) ∧
    (∀ slot target t, signalNotify q slot target t =
      (LIBRECUDA_ERROR_NOT_INITIALIZED, q)) ∧
    (∀ slot target, signalWait q slot target =
      (LIBRECUDA_ERROR_NOT_INITIALIZED, q)) := by
  refine ⟨?_, ?_, ?_, ?_, ?_, ?_, ?_⟩ <;>
    intros <;>
    simp [enqueue, startExecution, awaitExecution, obtainSignal,
      releaseSignal, signalNotify, signalWait, h]

/-- C7 witness: the operations on a constructed-but-uninitialized queue. -/
theorem not_initialized_rejected_witness :
    enqueue freshQueue 7 [1] = (LIBRECUDA_ERROR_NOT_INITIALIZED, freshQueue) ∧
    startExecution freshQueue QueueType.COMPUTE =
      (LIBRECUDA_ERROR_NOT_INITIALIZED, freshQueue) ∧
    obtainSignal freshQueue =
      (LIBRECUDA_ERROR_NOT_INITIALIZED, none, freshQueue) := by
  obtain ⟨h1, h2, _, h4, _, _, _⟩ := not_initialized_rejected freshQueue rfl
  exact ⟨h1 7 [1], h2 QueueType.COMPUTE, h4⟩

/-- C8: `submitToFifo` never writes past the page bounds: a submission whose
length exceeds the remaining capacity fails deterministically with a
submission error and leaves the page untouched, while a fitting submission
succeeds, appends exactly the buffer at the write offset, and keeps the
advanced write offset within capacity (and equal to the written length). -/
theorem submitToFifo_capacity (page : CommandQueuePage) (buf : List Nat)
    (hwf : page.commandWritePtr = page.commandQueueSpace.length) :
    (page.capacity < page.commandWritePtr + buf.length →
      submitToFifo page buf = (LIBRECUDA_ERROR_SUBMISSION_FAILED, page)) ∧
    (page.commandWritePtr + buf.length ≤ page.capacity →
      (submitToFifo page buf).1 = LIBRECUDA_SUCCESS ∧
      (submitToFifo page buf).2.commandQueueSpace =
        page.commandQueueSpace ++ buf ∧
      (submitToFifo page buf).2.commandWritePtr =
        page.commandWritePtr + buf.length ∧
      (submitToFifo page buf).2.commandWritePtr ≤
        (submitToFifo page buf).2.capacity ∧
      (submitToFifo page buf).2.commandWritePtr =
        (submitToFifo page buf).2.commandQueueSpace.length) := by
  constructor
  · intro hover
    have hnot : ¬ (page.commandWritePtr + buf.length ≤ page.capacity) := by omega
    simp [submitToFifo, hnot]
  · intro hfits
    have hfits2 : page.commandQueueSpace.length + buf.length ≤ page.capacity := by
      omega
    simp [submitToFifo, hwf, hfits2]

/-- C8 witness: a two-word submission overflows a one-word page and fails
leaving it untouched, and fits into a 64-word page. -/
theorem submitToFifo_capacity_witness :
    submitToFifo { commandQueueSpace := [], commandWritePtr := 0, capacity := 1 }
        [5, 6] =
      (LIBRECUDA_ERROR_SUBMISSION_FAILED,
        { commandQueueSpace := [], commandWritePtr := 0, capacity := 1 }) ∧
    (submitToFifo
      { commandQueueSpace := [], commandWritePtr := 0, capacity := 64 }
        [5, 6]).1 = LIBRECUDA_SUCCESS := by
  refine ⟨(submitToFifo_capacity _ [5, 6] rfl).1 (by decide), ?_⟩
  exact ((submitToFifo_capacity _ [5, 6] rfl).2 (by decide)).1

/-- C9: `makeNvMethod` is a pure total function producing a 64-bit value (the
model is a function, so two equal input tuples trivially yield equal outputs
with no side effects or failure path), and on the argument ranges the system
uses — the packed field widths: 3-bit subcommand, 13-bit method, 12-bit size,
4-bit type — it is injective: distinct tuples never encode to the same
value. -/
theorem makeNvMethod_injective (s1 m1 z1 t1 s2 m2 z2 t2 : Nat)
    (hs1 : s1 < 2 ^ 3) (hm1 : m1 < 2 ^ 13) (hz1 : z1 < 2 ^ 12)
    (ht1 : t1 < 2 ^ 4) (hs2 : s2 < 2 ^ 3) (hm2 : m2 < 2 ^ 13)
    (hz2 : z2 < 2 ^ 12) (ht2 : t2 < 2 ^ 4) :
    makeNvMethod s1 m1 z1 t1 < 2 ^ 64 ∧
    (makeNvMethod s1 m1 z1 t1 = makeNvMethod s2 m2 z2 t2 →
      s1 = s2 ∧ m1 = m2 ∧ z1 = z2 ∧ t1 = t2) := by
  unfold makeNvMethod
  refine ⟨Nat.mod_lt _ (by norm_num), fun heq => ?_⟩
  omega

/-- C9 witness: the encoder applied to the tuple used by the notify command. -/
theorem makeNvMethod_injective_witness :
    makeNvMethod 1 16 2 2 < 2 ^ 64 ∧
    (makeNvMethod 1 16 2 2 = makeNvMethod 1 16 2 2 →
      (1 : Nat) = 1 ∧ (16 : Nat) = 16 ∧ (2 : Nat) = 2 ∧ (2 : Nat) = 2) :=
  makeNvMethod_injective 1 16 2 2 1 16 2 2 (by decide) (by decide) (by decide)
    (by decide) (by decide) (by decide) (by decide) (by decide)

/-- C10: the timeline counter is an unsigned 32-bit integer, not a 64-bit
one: it starts at 0 on initialization, each `startExecution` increments it
modulo `2 ^ 32` (so from `2 ^ 32 - 1` it wraps to 0), and the signal targets
accepted by `signalNotify` and `signalWait` are 32-bit values (a target is
used reduced mod `2 ^ 32`), while the signal record's `value` field is the
64-bit device counter. -/
theorem timelineCtr_32bit (q : NvCommandQueue) (t : QueueType)
    (slot target cap N : Nat) (h : q.initialized = true) :
    (initializeQueue freshQueue cap N).2.timelineCtr = 0 ∧
    (startExecution q t).2.timelineCtr = (q.timelineCtr + 1) % 2 ^ 32 ∧
    (q.timelineCtr = 2 ^ 32 - 1 → (startExecution q t).2.timelineCtr = 0) ∧
    signalNotify q slot target t = signalNotify q slot (target % 2 ^ 32) t ∧
    signalWait q slot target = signalWait q slot (target % 2 ^ 32) := by
  obtain ⟨p1, _, _, _, _⟩ := startExecution_post q t h
  have hmm : target % 2 ^ 32 % 2 ^ 32 = target % 2 ^ 32 := by omega
  refine ⟨by simp [initializeQueue, freshQueue], p1, ?_, ?_, ?_⟩
  · intro hmax
    rw [p1, hmax]
    norm_num
  · simp [signalNotify, notifyWords, encodeCall, hmm]
  · simp [signalWait, waitWords, encodeCall, hmm]

/-- C10 witness: the wrap and truncation at concrete values on the fresh
initialized queue. -/
theorem timelineCtr_32bit_witness :
    (initializeQueue freshQueue 64 4).2.timelineCtr = 0 ∧
    (startExecution qInit QueueType.COMPUTE).2.timelineCtr =
      (qInit.timelineCtr + 1) % 2 ^ 32 ∧
    signalNotify qInit 1 (2 ^ 32 + 5) QueueType.COMPUTE =
      signalNotify qInit 1 ((2 ^ 32 + 5) % 2 ^ 32) QueueType.COMPUTE := by
  obtain ⟨h1, h2, _, h4, _⟩ := timelineCtr_32bit qInit QueueType.COMPUTE 1
    (2 ^ 32 + 5) 64 4 (by decide)
  exact ⟨h1, h2, h4⟩

end LibreCuda
